import Mathlib

/-!
Verification of the reconstructed analysis core of the Hi-PARIS summer-school
EEG/MEG notebooks: segment (epoch) extraction with rejection thresholds,
condition-based selection, trial averaging and weighted combination, and the
sliding-window cross-validated decoding loop of the motor-imagery notebook.

Numeric sample values are modelled as rationals; indices as naturals.
-/

namespace HiParis

/-- Error kinds of the core, as listed in the error-handling design. -/
inductive CoreError where
  | emptySelection
  | unknownCondition
  | indexOutOfRange
  | dimensionMismatch
  | insufficientData
deriving DecidableEq

/-- A multichannel series: channel-major sample data (channels × samples)
together with its sample count. -/
structure Series where
  data : List (List ℚ)
  nSamples : ℕ
deriving DecidableEq

/-- A segment (epoch): the originating event sample, its label code, and the
absolute inclusive sample range [start, stop] it covers in the series. -/
structure Segment where
  event : ℕ
  label : ℤ
  start : ℕ
  stop : ℕ
deriving DecidableEq

instance : Inhabited Segment := ⟨⟨0, 0, 0, 0⟩⟩

/-- Maximum of a list of rationals (0 for the empty list). -/
def listMax : List ℚ → ℚ
  | [] => 0
  | x :: xs => xs.foldl max x

/-- Minimum of a list of rationals (0 for the empty list). -/
def listMin : List ℚ → ℚ
  | [] => 0
  | x :: xs => xs.foldl min x

/-- Peak-to-peak amplitude of a list of samples: max − min. -/
def ptpVal (l : List ℚ) : ℚ := listMax l - listMin l

/-- The samples of channel `c` of a series over the inclusive window
[start, stop] of a segment. -/
def chanSlice (series : Series) (c : ℕ) (seg : Segment) : List ℚ :=
  ((series.data.getD c []).drop seg.start).take (seg.stop + 1 - seg.start)

/-- Rejection thresholds: each entry pairs a channel group (channel indices)
with a maximum allowed peak-to-peak amplitude. -/
abbrev RejectionThresholds := List (List ℕ × ℚ)

/-- A segment passes rejection when, for every configured channel group, no
channel of the group exceeds the group's peak-to-peak threshold within the
segment window. -/
def passes (series : Series) (rej : RejectionThresholds) (seg : Segment) : Bool :=
  rej.all fun g => g.1.all fun c => decide (ptpVal (chanSlice series c seg) ≤ g.2)

/-- Modelled from the spec: `SegmentIndex.build` (the notebooks delegate this
to the external library's epoching routine, whose source is not part of this
repository). For each event it forms the inclusive absolute sample range
[event + tminS, event + tmaxS] (window already converted to samples), silently
discards any event whose range falls outside [0, nSamples), and then drops the
surviving candidates that fail the peak-to-peak rejection thresholds.
Original event order is preserved. -/
def build (series : Series) (events : List (ℕ × ℤ)) (tminS tmaxS : ℤ)
    (rej : RejectionThresholds) : List Segment :=
  (events.filterMap fun ev =>
    let s : ℤ := (ev.1 : ℤ) + tminS
    let t : ℤ := (ev.1 : ℤ) + tmaxS
    if 0 ≤ s ∧ t < (series.nSamples : ℤ) then
      some { event := ev.1, label := ev.2, start := s.toNat, stop := t.toNat }
    else none).filter (passes series rej)

/-- Components of a slash-delimited condition name, as a list of character
lists: splitting on the character '/'. -/
def splitSlash : List Char → List (List Char)
  | [] => [[]]
  | c :: rest =>
    let r := splitSlash rest
    if c = '/' then [] :: r else (c :: r.headD []) :: r.tail

/-- A query string matches a condition name when the full name equals the
query, or the query is one of the name's slash-separated components. -/
def condMatches (q name : String) : Bool :=
  name == q || (splitSlash name.data).contains q.data

/-- A condition map: human-readable condition names paired with label codes. -/
abbrev ConditionMap := List (String × ℤ)

/-- The condition-map entries whose name matches the query string. -/
def matchingPairs (cmap : ConditionMap) (q : String) : ConditionMap :=
  cmap.filter fun p => condMatches q p.1

/-- Modelled from the spec: string-keyed condition selection (the notebooks
delegate it to the external library's epoch indexing). The order-preserving,
duplicate-free union over all matching condition names of the segments whose
label maps to that name is realised as a single filter pass over the segment
sequence. -/
def selectByName (segs : List Segment) (cmap : ConditionMap) (q : String) :
    List Segment :=
  segs.filter fun s => (matchingPairs cmap q).any fun p => p.2 == s.label

/-- A selection key: a bare (possibly negative) integer position, a slice
triple, or a condition-name string. -/
inductive SelKey where
  | pos (i : ℤ)
  | slices (start stop step : ℤ)
  | name (q : String)

/-- Normalise a possibly negative index against a sequence length. -/
def normIdx (n : ℕ) (i : ℤ) : ℤ := if i < 0 then i + (n : ℕ) else i

/-- Offsets 0, step, 2*step, ... strictly below `stop` (empty when the step
is zero), mirroring the numpy arange call of the sliding-window loop. -/
def arange0 (stop step : ℕ) : List ℕ :=
  if step = 0 then [] else (List.range ((stop + step - 1) / step)).map (· * step)

/-- Modelled from the spec: positions selected by a slice triple over a
sequence of length n, clipping silently to valid bounds as general sequence
slicing does; a non-positive step yields an empty selection rather than a
failure, since slices never fail. -/
def sliceIdx (n : ℕ) (start stop step : ℤ) : List ℕ :=
  if step ≤ 0 then []
  else
    let s := (max 0 (min (n : ℤ) (normIdx n start))).toNat
    let e := (max 0 (min (n : ℤ) (normIdx n stop))).toNat
    (arange0 (e - s) step.toNat).map (s + ·)

/-- Modelled from the spec: the single `select` entry point dispatching on the
key kind (the notebooks delegate it to the external library's epoch indexing).
A bare integer out of positional range fails with IndexOutOfRangeError; a
string with no matching condition name fails with UnknownConditionError;
slices never fail. -/
def select (segs : List Segment) (cmap : ConditionMap) :
    SelKey → Except CoreError (List Segment)
  | .pos i =>
    let j := normIdx segs.length i
    if 0 ≤ j ∧ j < (segs.length : ℤ) then .ok ((segs.drop j.toNat).take 1)
    else .error .indexOutOfRange
  | .slices a b c =>
    .ok ((sliceIdx segs.length a b c).map fun k => segs.getD k default)
  | .name q =>
    if matchingPairs cmap q = [] then .error .unknownCondition
    else .ok (selectByName segs cmap q)

/-- An averaged (evoked) response: channel-major data plus the effective
number of trials it averages (rational, since weighted combination yields a
non-integer effective trial count). -/
structure AveragedResponse where
  data : List (List ℚ)
  nTrials : ℚ
deriving DecidableEq

/-- Entry (channel c, sample t) of a channel-major matrix, defaulting to 0
outside the stored shape. -/
def entry (m : List (List ℚ)) (c t : ℕ) : ℚ := (m.getD c []).getD t 0

/-- Elementwise sum of two channel-major matrices. -/
def matAdd (A B : List (List ℚ)) : List (List ℚ) :=
  List.zipWith (List.zipWith (· + ·)) A B

/-- Elementwise scaling of a channel-major matrix. -/
def matSMul (a : ℚ) (m : List (List ℚ)) : List (List ℚ) :=
  m.map fun row => row.map fun x => a * x

/-- Sum of a list of channel-major matrices ([] for the empty list). -/
def sumMats : List (List (List ℚ)) → List (List ℚ)
  | [] => []
  | m :: ms => ms.foldl matAdd m

/-- The matrix has exactly C rows, each of length w. -/
def HasShape (m : List (List ℚ)) (C w : ℕ) : Prop :=
  m.length = C ∧ ∀ row ∈ m, row.length = w

/-- The row-length profile of a channel-major matrix (its shape). -/
def rowLens (m : List (List ℚ)) : List ℕ := m.map (·.length)

/-- The sample array of a segment: every channel of the series restricted to
the segment's inclusive window. -/
def segData (series : Series) (seg : Segment) : List (List ℚ) :=
  series.data.map fun ch => (ch.drop seg.start).take (seg.stop + 1 - seg.start)

/-- Modelled from the spec: `average` (the notebooks delegate it to the
external library's evoked averaging). Fails with EmptySelectionError on an
empty segment set; otherwise returns the elementwise mean of the segments'
sample arrays with n_trials equal to the number of segments. -/
def average (series : Series) (segs : List Segment) :
    Except CoreError AveragedResponse :=
  match segs with
  | [] => .error .emptySelection
  | s :: rest =>
    .ok { data := matSMul (1 / ((s :: rest).length : ℚ))
                    (sumMats ((s :: rest).map (segData series))),
          nTrials := ((s :: rest).length : ℚ) }

/-- Modelled from the spec: `combine` (the notebooks delegate it to the
external library's evoked combination). Computes the elementwise weighted sum
of the responses and sets the combined trial count by the
noise-variance-correct rule 1 / sum(w_i^2 / n_i); fails with
DimensionMismatchError when shapes (or the weight count) disagree. -/
def combine (rs : List AveragedResponse) (ws : List ℚ) :
    Except CoreError AveragedResponse :=
  match rs with
  | [] => .error .dimensionMismatch
  | r :: rest =>
    if ws.length = (r :: rest).length ∧
        rest.all (fun s => rowLens s.data == rowLens r.data) then
      .ok { data := sumMats (List.zipWith (fun w s => matSMul w s.data) ws (r :: rest)),
            nTrials := 1 / (List.zipWith (fun w s => w ^ 2 / s.nTrials) ws (r :: rest)).sum }
    else .error .dimensionMismatch

/-- Chance level as computed in the motor-imagery notebook: the larger of the
fraction of labels equal to the first label and its complement. -/
def class_balance (labels : List ℤ) : ℚ :=
  let p : ℚ := ((labels.filter fun x => x == labels.headD 0).length : ℚ) / (labels.length : ℚ)
  max p (1 - p)

/-- One trial (epoch) of decoding data: channels × samples. -/
abbrev Trial := List (List ℚ)

/-- A feature vector produced by the spatial-filter transform. -/
abbrev Feat := List ℚ

/-- The supervised spatial-filter transform (CSP in the notebook), abstracted
over its fitted-state type: fit_transform and transform, as used by the
sliding-window loop. -/
structure CSPLike (C : Type) where
  fitTrans : List Trial → List ℤ → C × List Feat
  transform : C → List Trial → List Feat

/-- The classifier (LDA in the notebook), abstracted over its fitted-state
type: fit and score, as used by the sliding-window loop. -/
structure ClassifierLike (L : Type) where
  fit : List Feat → List ℤ → L
  score : L → List Feat → List ℤ → ℚ

/-- Fancy indexing X[idx] over trials. -/
def pick (X : List Trial) (idx : List ℕ) : List Trial :=
  idx.map fun i => X.getD i []

/-- Fancy indexing labels[idx]. -/
def pickLabels (y : List ℤ) (idx : List ℕ) : List ℤ :=
  idx.map fun i => y.getD i 0

/-- The slice X[:, :, n:(n + w)] over trials: every channel of every trial
restricted to samples [n, n + w). -/
def cropWindow (X : List Trial) (n w : ℕ) : List Trial :=
  X.map fun tr => tr.map fun ch => (ch.drop n).take w

/-- One split of the sliding-window loop of the motor-imagery notebook: fit
the transform and classifier once on the cropped training data restricted to
the train indices, then score at every sliding offset on the full-window test
data restricted to [n, n + wLength) and the test indices. -/
def splitScores {C L : Type} (csp : CSPLike C) (clf : ClassifierLike L)
    (X Xtrain : List Trial) (labels : List ℤ) (ws : List ℕ) (wLength : ℕ)
    (tr te : List ℕ) : List ℚ :=
  let yTr := pickLabels labels tr
  let yTe := pickLabels labels te
  let ft := csp.fitTrans (pick Xtrain tr) yTr
  let model := clf.fit ft.2 yTr
  ws.map fun n => clf.score model (csp.transform ft.1 (cropWindow (pick X te) n wLength)) yTe

/-- The scores_windows accumulator of the notebook: one row of per-offset
scores per cross-validation split. -/
def scores_windows {C L : Type} (csp : CSPLike C) (clf : ClassifierLike L)
    (X Xtrain : List Trial) (labels : List ℤ) (ws : List ℕ) (wLength : ℕ)
    (splits : List (List ℕ × List ℕ)) : List (List ℚ) :=
  splits.map fun s => splitScores csp clf X Xtrain labels ws wLength s.1 s.2

/-- Column mean of the scores matrix: mean accuracy per offset across splits,
as in np.mean(scores_windows, 0). -/
def meanOverSplits (sw : List (List ℚ)) (nOffsets : ℕ) : List ℚ :=
  (List.range nOffsets).map fun j => (sw.map fun row => row.getD j 0).sum / (sw.length : ℚ)

/-- The offset-to-time mapping of the notebook:
(offset + window_length / 2) / sampling_rate + tmin. -/
def w_times (ws : List ℕ) (wLength : ℕ) (sfreq tmin : ℚ) : List ℚ :=
  ws.map fun n : ℕ => ((n : ℚ) + (wLength : ℚ) / 2) / sfreq + tmin

/-- A linear congruential pseudo-random step (31-bit), used to model the
deterministic seeded randomness of the split generator. -/
def lcg (s : ℕ) : ℕ := (1103515245 * s + 12345) % 2 ^ 31

/-- Iterated pseudo-random steps from a seed. -/
def lcgIter : ℕ → ℕ → ℕ
  | 0, s => s
  | k + 1, s => lcg (lcgIter k s)

/-- One pass of a seeded draw-without-replacement shuffle, structurally
recursive on fuel. -/
def shuffleAux : ℕ → List ℕ → ℕ → List ℕ
  | _, _, 0 => []
  | seed, l, fuel + 1 =>
    if l.length = 0 then []
    else
      let k := seed % l.length
      l.getD k 0 :: shuffleAux (lcg seed) (l.take k ++ l.drop (k + 1)) fuel

/-- A seeded pseudo-random permutation of 0..n-1. -/
def shuffled (seed n : ℕ) : List ℕ := shuffleAux seed (List.range n) n

/-- Modelled from the spec: one (train, test) split drawn by the seeded
shuffle-split generator: shuffle the indices, take the test block first and
train on the rest (the generator itself is external library code). -/
def shuffleSplitOne (seed n nTest : ℕ) : List ℕ × List ℕ :=
  let p := shuffled seed n
  (p.drop nTest, p.take nTest)

/-- Modelled from the spec: the seeded shuffle-split generator producing a
fixed count of (train, test) splits with a fixed test fraction, fully
determined by its seed. -/
def shuffleSplit (seed nSplits n : ℕ) (testFrac : ℚ) : List (List ℕ × List ℕ) :=
  let nTest := Nat.ceil (testFrac * (n : ℚ))
  (List.range nSplits).map fun i => shuffleSplitOne (lcgIter (i + 1) seed) n nTest

/-- The complete sliding-window evaluation of the notebook: generate the
seeded splits, accumulate the per-split per-offset scores, and return the
per-offset mean accuracy across splits. -/
def evaluatorRun {C L : Type} (csp : CSPLike C) (clf : ClassifierLike L)
    (X Xtrain : List Trial) (labels : List ℤ) (nSamples wLength wStep : ℕ)
    (seed nSplits : ℕ) (testFrac : ℚ) : List ℚ :=
  let ws := arange0 (nSamples - wLength) wStep
  let splits := shuffleSplit seed nSplits X.length testFrac
  meanOverSplits (scores_windows csp clf X Xtrain labels ws wLength splits) ws.length

/-! ## Theorems -/

lemma build_mem {series : Series} {events : List (ℕ × ℤ)} {tminS tmaxS : ℤ}
    {rej : RejectionThresholds} {seg : Segment}
    (h : seg ∈ build series events tminS tmaxS rej) :
    ∃ ev ∈ events, 0 ≤ (ev.1 : ℤ) + tminS ∧ (ev.1 : ℤ) + tmaxS < (series.nSamples : ℤ) ∧
      seg = { event := ev.1, label := ev.2, start := ((ev.1 : ℤ) + tminS).toNat,
              stop := ((ev.1 : ℤ) + tmaxS).toNat } := by
  unfold build at h
  rw [List.mem_filter] at h
  rcases List.mem_filterMap.mp h.1 with ⟨ev, hev, hf⟩
  by_cases hc : 0 ≤ (ev.1 : ℤ) + tminS ∧ (ev.1 : ℤ) + tmaxS < (series.nSamples : ℤ)
  · simp only [hc, if_pos, and_self, Option.some.injEq] at hf
    exact ⟨ev, hev, hc.1, hc.2, hf.symm⟩
  · simp only [hc, if_neg, if_false] at hf
    cases hf

/-- C3: every segment produced by `build` satisfies 0 ≤ start ≤ stop < nSamples
(with a well-formed window), and an event whose absolute sample range falls
outside [0, nSamples) is silently discarded; concretely, 4 events at samples
[100, 400, 700, 1000] with a (-20, +50)-sample window keep all 4 segments in a
series of 1100 samples, while a series of 1040 samples drops exactly the event
at sample 1000, leaving 3. -/
theorem c3_build_bounds_and_discard :
    (∀ (series : Series) (events : List (ℕ × ℤ)) (tminS tmaxS : ℤ)
        (rej : RejectionThresholds), tminS ≤ tmaxS →
        ∀ seg ∈ build series events tminS tmaxS rej,
          seg.start ≤ seg.stop ∧ seg.stop < series.nSamples) ∧
    (build ⟨[], 1100⟩ [(100, 1), (400, 2), (700, 1), (1000, 2)] (-20) 50 []).length = 4 ∧
    (build ⟨[], 1040⟩ [(100, 1), (400, 2), (700, 1), (1000, 2)] (-20) 50 []).map
        (·.event) = [100, 400, 700] := by
  refine ⟨?_, by decide, by decide⟩
  intro series events tminS tmaxS rej hw seg hseg
  rcases build_mem hseg with ⟨ev, _, h0, hn, rfl⟩
  constructor
  · simp only
    omega
  · simp only
    omega

/-- Witness for C3 at a concrete input: the single event at sample 100 with
window (-20, +50) yields the segment [80, 150], which satisfies the bounds. -/
theorem c3_build_bounds_and_discard_witness :
    (⟨100, 1, 80, 150⟩ : Segment).start ≤ (⟨100, 1, 80, 150⟩ : Segment).stop ∧
    (⟨100, 1, 80, 150⟩ : Segment).stop < (⟨[], 1100⟩ : Series).nSamples :=
  c3_build_bounds_and_discard.1 ⟨[], 1100⟩ [(100, 1)] (-20) 50 [] (by decide)
    ⟨100, 1, 80, 150⟩ (by decide)

lemma passes_mono {series : Series} {seg : Segment} {R1 R2 : RejectionThresholds}
    (h : List.Forall₂ (fun g1 g2 => g1.1 = g2.1 ∧ g2.2 ≤ g1.2) R1 R2)
    (h2 : passes series R2 seg = true) : passes series R1 seg = true := by
  induction h with
  | nil => rfl
  | cons hg _ ih =>
    rename_i g1 g2 R1t R2t
    simp only [passes, List.all_cons, Bool.and_eq_true] at h2 ⊢
    refine ⟨?_, ih h2.2⟩
    rw [List.all_eq_true] at h2 ⊢
    intro c hc
    have := h2.1 c (hg.1 ▸ hc)
    rw [decide_eq_true_iff] at this ⊢
    exact le_trans this hg.2

/-- C6: rejection is monotonic — with the same channel groups and each
threshold in the second configuration at most its counterpart in the first,
the second build never keeps more segments than the first. -/
theorem c6_rejection_monotone (series : Series) (events : List (ℕ × ℤ))
    (tminS tmaxS : ℤ) (R1 R2 : RejectionThresholds)
    (h : List.Forall₂ (fun g1 g2 => g1.1 = g2.1 ∧ g2.2 ≤ g1.2) R1 R2) :
    (build series events tminS tmaxS R2).length ≤
      (build series events tminS tmaxS R1).length := by
  unfold build
  exact (List.monotone_filter_right _ fun seg hs => passes_mono h hs).length_le

/-- Witness for C6 at a concrete input: a single-channel series with one
event, a loose threshold 5 against a tight threshold 1. -/
theorem c6_rejection_monotone_witness :
    (build ⟨[[0, 4, 0]], 3⟩ [(1, 1)] (-1) 1 [([0], 1)]).length ≤
      (build ⟨[[0, 4, 0]], 3⟩ [(1, 1)] (-1) 1 [([0], 5)]).length :=
  c6_rejection_monotone ⟨[[0, 4, 0]], 3⟩ [(1, 1)] (-1) 1 [([0], 5)] [([0], 1)]
    (List.forall₂_cons.mpr ⟨⟨rfl, by norm_num⟩, List.Forall₂.nil⟩)

lemma arange0_mem {stop step m : ℕ} :
    m ∈ arange0 stop step ↔ 0 < step ∧ step ∣ m ∧ m < stop := by
  unfold arange0
  rcases Nat.eq_zero_or_pos step with h | h
  · subst h; simp
  · rw [if_neg (Nat.pos_iff_ne_zero.mp h)]
    simp only [List.mem_map, List.mem_range]
    constructor
    · rintro ⟨k, hk, rfl⟩
      refine ⟨h, Dvd.intro k (mul_comm step k), ?_⟩
      have h1 : (k + 1) * step ≤ stop + step - 1 :=
        (Nat.le_div_iff_mul_le h).mp hk
      have h2 : (k + 1) * step = k * step + step := by ring
      omega
    · rintro ⟨-, ⟨k, rfl⟩, hm⟩
      refine ⟨k, ?_, mul_comm k step⟩
      rw [Nat.lt_iff_add_one_le, Nat.le_div_iff_mul_le h]
      have h2 : (k + 1) * step = step * k + step := by ring
      omega

lemma sliceIdx_lt {n : ℕ} {a b c : ℤ} {k : ℕ} (h : k ∈ sliceIdx n a b c) : k < n := by
  unfold sliceIdx at h
  by_cases hc : c ≤ 0
  · rw [if_pos hc] at h
    cases h
  · rw [if_neg hc] at h
    simp only [List.mem_map] at h
    rcases h with ⟨m, hm, rfl⟩
    have hmlt := (arange0_mem.mp hm).2.2
    have hb : (max 0 (min (n : ℤ) (normIdx n b))).toNat ≤ n := by
      rw [Int.toNat_le]
      exact max_le (Int.ofNat_nonneg n) (min_le_left _ _)
    omega

/-- Demonstration condition map of the tutorial notebook. -/
def demoMap : ConditionMap :=
  [("visual/left", 3), ("visual/right", 4), ("auditory/left", 1), ("auditory/right", 2)]

/-- Demonstration segments, one per condition of `demoMap`. -/
def demoSegs : List Segment :=
  [⟨10, 3, 0, 5⟩, ⟨20, 4, 10, 15⟩, ⟨30, 1, 20, 25⟩, ⟨40, 2, 30, 35⟩]

/-- C4: string selection returns exactly the segments whose label maps to a
condition name equal to the query or containing it as a slash-separated
component; the result is an order-preserving, duplicate-free subset of the
original segment sequence, and the query "left" selects the segments of both
"auditory/left" and "visual/left". -/
theorem c4_select_string_resolution :
    (∀ (segs : List Segment) (cmap : ConditionMap) (q : String) (seg : Segment),
        seg ∈ selectByName segs cmap q ↔
          seg ∈ segs ∧ ∃ p ∈ cmap, condMatches q p.1 = true ∧ p.2 = seg.label) ∧
    (∀ (segs : List Segment) (cmap : ConditionMap) (q : String),
        List.Sublist (selectByName segs cmap q) segs) ∧
    (∀ (segs : List Segment) (cmap : ConditionMap) (q : String),
        segs.Nodup → (selectByName segs cmap q).Nodup) ∧
    (∀ (segs : List Segment) (cmap : ConditionMap) (q : String),
        matchingPairs cmap q ≠ [] →
        select segs cmap (.name q) = .ok (selectByName segs cmap q)) ∧
    selectByName demoSegs demoMap "left" = [⟨10, 3, 0, 5⟩, ⟨30, 1, 20, 25⟩] := by
  refine ⟨?_, ?_, ?_, ?_, by decide⟩
  · intro segs cmap q seg
    simp only [selectByName, matchingPairs, List.mem_filter, List.any_eq_true,
      beq_iff_eq]
    tauto
  · intro segs cmap q
    exact List.filter_sublist segs
  · intro segs cmap q h
    exact h.filter _
  · intro segs cmap q h
    simp only [select, if_neg h]

/-- Witness for C4 at a concrete input: with the notebook's condition map the
string key "left" dispatches through `select` to the matching-component
resolution. -/
theorem c4_select_string_resolution_witness :
    select demoSegs demoMap (.name "left") = .ok (selectByName demoSegs demoMap "left") :=
  c4_select_string_resolution.2.2.2.1 demoSegs demoMap "left" (by decide)

/-- C8: a string key matching no condition fails with UnknownConditionError; a
bare integer index outside the valid positional range (negative indices
counting from the end) fails with IndexOutOfRangeError; a slice triple never
fails and only selects segments of the original sequence. -/
theorem c8_select_error_behaviour :
    (∀ (segs : List Segment) (cmap : ConditionMap) (q : String),
        matchingPairs cmap q = [] →
        select segs cmap (.name q) = .error .unknownCondition) ∧
    (∀ (segs : List Segment) (cmap : ConditionMap) (i : ℤ),
        normIdx segs.length i < 0 ∨ (segs.length : ℤ) ≤ normIdx segs.length i →
        select segs cmap (.pos i) = .error .indexOutOfRange) ∧
    (∀ (segs : List Segment) (cmap : ConditionMap) (a b c : ℤ),
        ∃ r, select segs cmap (.slices a b c) = .ok r ∧ ∀ x ∈ r, x ∈ segs) := by
  refine ⟨?_, ?_, ?_⟩
  · intro segs cmap q h
    simp only [select, if_pos h]
  · intro segs cmap i h
    simp only [select]
    rw [if_neg]
    omega
  · intro segs cmap a b c
    refine ⟨_, rfl, ?_⟩
    intro x hx
    simp only [List.mem_map] at hx
    rcases hx with ⟨k, hk, rfl⟩
    have hlt := sliceIdx_lt hk
    rw [List.getD_eq_getElem segs default hlt]
    exact List.getElem_mem hlt

/-- Witness for C8 at concrete inputs: the key "zzz" matches nothing in the
notebook's condition map, and position 4 is out of range for 4 segments. -/
theorem c8_select_error_behaviour_witness :
    select demoSegs demoMap (.name "zzz") = .error .unknownCondition ∧
    select demoSegs demoMap (.pos 4) = .error .indexOutOfRange :=
  ⟨c8_select_error_behaviour.1 demoSegs demoMap "zzz" (by decide),
   c8_select_error_behaviour.2.1 demoSegs demoMap 4 (by decide)⟩

lemma entry_matSMul (a : ℚ) (m : List (List ℚ)) (c t : ℕ) :
    entry (matSMul a m) c t = a * entry m c t := by
  unfold entry matSMul
  rw [List.getD_eq_getElem?_getD (List.map _ m), List.getElem?_map,
    List.getD_eq_getElem?_getD m]
  cases m[c]? with
  | none => simp
  | some row =>
    simp only [Option.map_some', Option.getD_some]
    rw [List.getD_eq_getElem?_getD (List.map _ row), List.getElem?_map,
      List.getD_eq_getElem?_getD row]
    cases row[t]? with
    | none => simp
    | some x => simp

lemma matAdd_shape {A B : List (List ℚ)} {C w : ℕ} (hA : HasShape A C w)
    (hB : HasShape B C w) : HasShape (matAdd A B) C w := by
  obtain ⟨hAl, hAr⟩ := hA
  obtain ⟨hBl, hBr⟩ := hB
  constructor
  · rw [matAdd, List.length_zipWith]
    omega
  · intro row hrow
    rw [matAdd, List.mem_iff_getElem] at hrow
    obtain ⟨i, hi, rfl⟩ := hrow
    have hiA : i < A.length := by
      rw [List.length_zipWith] at hi
      omega
    have hiB : i < B.length := by
      rw [List.length_zipWith] at hi
      omega
    rw [List.getElem_zipWith, List.length_zipWith,
      hAr _ (List.getElem_mem hiA), hBr _ (List.getElem_mem hiB)]
    omega

lemma entry_matAdd {A B : List (List ℚ)} {C w c t : ℕ} (hA : HasShape A C w)
    (hB : HasShape B C w) (hc : c < C) (ht : t < w) :
    entry (matAdd A B) c t = entry A c t + entry B c t := by
  have hz := matAdd_shape hA hB
  obtain ⟨hAl, hAr⟩ := hA
  obtain ⟨hBl, hBr⟩ := hB
  have hcA : c < A.length := by omega
  have hcB : c < B.length := by omega
  have hcz : c < (matAdd A B).length := by
    rw [hz.1]
    exact hc
  unfold entry
  rw [List.getD_eq_getElem A [] hcA, List.getD_eq_getElem B [] hcB,
    List.getD_eq_getElem _ [] hcz]
  have htA : t < (A.getD c []).length := by
    rw [List.getD_eq_getElem A [] hcA, hAr _ (List.getElem_mem hcA)]
    exact ht
  rw [List.getD_eq_getElem A [] hcA] at htA
  have htB : t < (B.getD c []).length := by
    rw [List.getD_eq_getElem B [] hcB, hBr _ (List.getElem_mem hcB)]
    exact ht
  rw [List.getD_eq_getElem B [] hcB] at htB
  have htz : t < ((matAdd A B).getD c []).length := by
    rw [List.getD_eq_getElem _ [] hcz, hz.2 _ (List.getElem_mem hcz)]
    exact ht
  rw [List.getD_eq_getElem _ [] hcz] at htz
  rw [List.getD_eq_getElem _ 0 htA, List.getD_eq_getElem _ 0 htB,
    List.getD_eq_getElem _ 0 htz]
  simp only [matAdd, List.getElem_zipWith]

lemma foldl_matAdd_entry {C w : ℕ} (rest : List (List (List ℚ))) :
    ∀ acc : List (List ℚ), HasShape acc C w → (∀ x ∈ rest, HasShape x C w) →
      HasShape (rest.foldl matAdd acc) C w ∧
      ∀ c t, c < C → t < w →
        entry (rest.foldl matAdd acc) c t =
          entry acc c t + (rest.map fun m => entry m c t).sum := by
  induction rest with
  | nil =>
    intro acc hacc _
    exact ⟨hacc, by simp⟩
  | cons m rest ih =>
    intro acc hacc hall
    have hm := hall m (List.mem_cons_self ..)
    have hadd := matAdd_shape hacc hm
    obtain ⟨hs, he⟩ := ih (matAdd acc m) hadd fun x hx => hall x (List.mem_cons_of_mem _ hx)
    refine ⟨hs, ?_⟩
    intro c t hc ht
    rw [List.foldl_cons, he c t hc ht, entry_matAdd hacc hm hc ht]
    simp only [List.map_cons, List.sum_cons]
    ring

lemma sumMats_entry {C w : ℕ} {ms : List (List (List ℚ))} (hne : ms ≠ [])
    (hall : ∀ x ∈ ms, HasShape x C w) {c t : ℕ} (hc : c < C) (ht : t < w) :
    entry (sumMats ms) c t = (ms.map fun m => entry m c t).sum := by
  cases ms with
  | nil => exact absurd rfl hne
  | cons m rest =>
    have hm := hall m (List.mem_cons_self ..)
    obtain ⟨-, he⟩ :=
      foldl_matAdd_entry rest m hm fun x hx => hall x (List.mem_cons_of_mem _ hx)
    rw [sumMats, he c t hc ht]
    simp

lemma matSMul_shape {m : List (List ℚ)} {C w : ℕ} (a : ℚ) (h : HasShape m C w) :
    HasShape (matSMul a m) C w := by
  obtain ⟨hl, hr⟩ := h
  constructor
  · rw [matSMul, List.length_map]
    exact hl
  · intro row hrow
    rw [matSMul, List.mem_map] at hrow
    obtain ⟨r, hrm, rfl⟩ := hrow
    rw [List.length_map]
    exact hr r hrm

/-- C7: `average` fails with EmptySelectionError exactly on the empty segment
set; on a non-empty set it returns the elementwise mean of the segments'
sample arrays, and the returned response always has n_trials equal to the
number of segments. -/
theorem c7_average_empty_iff_and_mean :
    (∀ (series : Series) (segs : List Segment),
        average series segs = .error .emptySelection ↔ segs = []) ∧
    (∀ (series : Series) (segs : List Segment), segs ≠ [] →
        ∃ r, average series segs = .ok r ∧ r.nTrials = (segs.length : ℚ) ∧
          ∀ (C w c t : ℕ), (∀ s ∈ segs, HasShape (segData series s) C w) →
            c < C → t < w →
            entry r.data c t =
              (segs.map fun s => entry (segData series s) c t).sum / (segs.length : ℚ)) := by
  constructor
  · intro series segs
    cases segs with
    | nil => simp [average]
    | cons s rest => simp [average]
  · intro series segs hne
    cases segs with
    | nil => exact absurd rfl hne
    | cons s rest =>
      refine ⟨_, rfl, rfl, ?_⟩
      intro C w c t hall hc ht
      show entry (matSMul _ _) c t = _
      rw [entry_matSMul,
        sumMats_entry (by simp) (fun x hx => by
          rw [List.mem_map] at hx
          obtain ⟨sg, hsg, rfl⟩ := hx
          exact hall sg hsg) hc ht,
        List.map_map, one_div, inv_mul_eq_div]
      rfl

/-- Witness series for the averaging claims: one channel, two samples. -/
def wSeries : Series := ⟨[[5, 7]], 2⟩

/-- Witness segment covering both samples of `wSeries`. -/
def wSeg : Segment := ⟨0, 1, 0, 1⟩

/-- Witness for C7 at a concrete input: averaging the singleton segment set
succeeds with n_trials 1 and the mean equal to that segment's samples. -/
theorem c7_average_empty_iff_and_mean_witness :
    ([wSeg] : List Segment) ≠ [] ∧
    ∃ r, average wSeries [wSeg] = .ok r ∧
      r.nTrials = (([wSeg] : List Segment).length : ℚ) ∧
      ∀ (C w c t : ℕ), (∀ s ∈ [wSeg], HasShape (segData wSeries s) C w) →
        c < C → t < w →
        entry r.data c t =
          ([wSeg].map fun s => entry (segData wSeries s) c t).sum /
            (([wSeg] : List Segment).length : ℚ) :=
  ⟨by decide, c7_average_empty_iff_and_mean.2 wSeries [wSeg] (by decide)⟩

/-- C1: combining two same-shaped responses with weights [w1, w2] yields the
elementwise weighted sum with combined trial count 1 / (w1²/n1 + w2²/n2); in
particular n_trials 55 and 61 under weights [1, -1] give 3355/116 ≈ 28.9,
not the straight sum 116. -/
theorem c1_combine_weighted_nave :
    (∀ (r1 r2 : AveragedResponse) (w1 w2 : ℚ),
        rowLens r1.data = rowLens r2.data →
        ∃ res, combine [r1, r2] [w1, w2] = .ok res ∧
          res.nTrials = 1 / (w1 ^ 2 / r1.nTrials + w2 ^ 2 / r2.nTrials) ∧
          ∀ (C w c t : ℕ), HasShape r1.data C w → HasShape r2.data C w →
            c < C → t < w →
            entry res.data c t = w1 * entry r1.data c t + w2 * entry r2.data c t) ∧
    (∃ res, combine [⟨[[1]], 55⟩, ⟨[[2]], 61⟩] [1, -1] = .ok res ∧
        res.nTrials = 1 / ((1 : ℚ) / 55 + 1 / 61) ∧ res.nTrials = 3355 / 116 ∧
        res.nTrials ≠ 55 + 61) := by
  constructor
  · intro r1 r2 w1 w2 hshape
    have hall : ([r2].all fun s => rowLens s.data == rowLens r1.data) = true := by
      simp only [List.all_cons, List.all_nil, Bool.and_true, beq_iff_eq]
      exact hshape.symm
    have hok : combine [r1, r2] [w1, w2] =
        .ok { data := sumMats [matSMul w1 r1.data, matSMul w2 r2.data],
              nTrials := 1 / (w1 ^ 2 / r1.nTrials + (w2 ^ 2 / r2.nTrials + 0)) } := by
      show (if _ then _ else _) = _
      rw [if_pos ⟨rfl, hall⟩]
      rfl
    refine ⟨_, hok, by simp, ?_⟩
    intro C w c t h1 h2 hc ht
    show entry (sumMats [matSMul w1 r1.data, matSMul w2 r2.data]) c t = _
    have hs1 := matSMul_shape w1 h1
    have hs2 := matSMul_shape w2 h2
    show entry (matAdd (matSMul w1 r1.data) (matSMul w2 r2.data)) c t = _
    rw [entry_matAdd hs1 hs2 hc ht, entry_matSMul, entry_matSMul]
  · refine ⟨_, rfl, ?_, ?_, ?_⟩ <;> norm_num

/-- Witness for C1 at a concrete input: two single-entry responses with trial
counts 55 and 61 combined with weights [1, -1]. -/
theorem c1_combine_weighted_nave_witness :
    rowLens ([[(1 : ℚ)]]) = rowLens ([[(2 : ℚ)]]) ∧
    ∃ res, combine [⟨[[1]], 55⟩, ⟨[[2]], 61⟩] [1, -1] = .ok res ∧
      res.nTrials = 1 / ((1 : ℚ) ^ 2 / 55 + (-1 : ℚ) ^ 2 / 61) ∧
      ∀ (C w c t : ℕ), HasShape [[(1 : ℚ)]] C w → HasShape [[(2 : ℚ)]] C w →
        c < C → t < w →
        entry res.data c t =
          1 * entry [[(1 : ℚ)]] c t + (-1) * entry [[(2 : ℚ)]] c t :=
  ⟨rfl, c1_combine_weighted_nave.1 ⟨[[1]], 55⟩ ⟨[[2]], 61⟩ 1 (-1) rfl⟩

/-- C9: the chance level computed by the motor-imagery notebook as the larger
of the first-class fraction and its complement always lies in [1/2, 1]. -/
theorem c9_class_balance_bounds (labels : List ℤ) (h : labels ≠ []) :
    1 / 2 ≤ class_balance labels ∧ class_balance labels ≤ 1 := by
  have hn : 0 < labels.length := List.length_pos.mpr h
  have hk : (labels.filter fun x => x == labels.headD 0).length ≤ labels.length :=
    List.length_filter_le _ _
  have hnq : (0 : ℚ) < (labels.length : ℚ) := by exact_mod_cast hn
  unfold class_balance
  set p : ℚ :=
    ((labels.filter fun x => x == labels.headD 0).length : ℚ) / (labels.length : ℚ)
    with hp
  have hp0 : 0 ≤ p := by positivity
  have hp1 : p ≤ 1 := by
    rw [hp, div_le_one hnq]
    exact_mod_cast hk
  constructor
  · rcases le_total p (1 / 2) with hle | hge
    · exact le_max_of_le_right (by linarith)
    · exact le_max_of_le_left hge
  · exact max_le hp1 (by linarith)

/-- Witness for C9 at a concrete input: the labels [0, 0, 1]. -/
theorem c9_class_balance_bounds_witness :
    1 / 2 ≤ class_balance [0, 0, 1] ∧ class_balance [0, 0, 1] ≤ 1 :=
  c9_class_balance_bounds [0, 0, 1] (by decide)

lemma getD_map {α β : Type} (f : α → β) (l : List α) (i : ℕ) (d : α) (d0 : β)
    (h : i < l.length) : (l.map f).getD i d0 = f (l.getD i d) := by
  rw [List.getD_eq_getElem _ _ (by simpa using h), List.getElem_map,
    List.getD_eq_getElem _ _ h]

/-- C10: every split contributes exactly one score per offset, so the scores
matrix is rectangular of shape (number of splits) × (number of offsets), and
the per-offset mean divides by exactly the number of splits at every offset
regardless of the split contents. -/
theorem c10_scores_rectangular (C L : Type) (csp : CSPLike C) (clf : ClassifierLike L)
    (X Xtrain : List Trial) (labels : List ℤ) (ws : List ℕ) (wLength : ℕ)
    (splits : List (List ℕ × List ℕ)) :
    (scores_windows csp clf X Xtrain labels ws wLength splits).length = splits.length ∧
    (∀ row ∈ scores_windows csp clf X Xtrain labels ws wLength splits,
        row.length = ws.length) ∧
    (meanOverSplits (scores_windows csp clf X Xtrain labels ws wLength splits)
        ws.length).length = ws.length ∧
    ∀ j : ℕ, j < ws.length →
      (meanOverSplits (scores_windows csp clf X Xtrain labels ws wLength splits)
          ws.length).getD j 0 =
        ((scores_windows csp clf X Xtrain labels ws wLength splits).map
            fun row => row.getD j 0).sum / (splits.length : ℚ) := by
  refine ⟨List.length_map _ _, ?_, ?_, ?_⟩
  · intro row hrow
    rw [scores_windows, List.mem_map] at hrow
    obtain ⟨s, hs, rfl⟩ := hrow
    simp [splitScores]
  · simp [meanOverSplits]
  · intro j hj
    rw [meanOverSplits, getD_map _ _ j 0 0 (by simpa using hj),
      List.getD_eq_getElem _ _ (by simpa using hj), List.getElem_range,
      scores_windows, List.length_map]

/-- Witness for C10 at a concrete input: one trivial split and a single
offset with constant-score transform and classifier. -/
def wCSP : CSPLike Unit := ⟨fun _ _ => ((), []), fun _ _ => []⟩

/-- Constant classifier used by the sliding-window witnesses. -/
def wCLF : ClassifierLike Unit := ⟨fun _ _ => (), fun _ _ _ => 1⟩

theorem c10_scores_rectangular_witness :
    (meanOverSplits (scores_windows wCSP wCLF [[[0]]] [[[0]]] [0] [0] 1
        [([0], [0])]) ([0] : List ℕ).length).getD 0 0 =
      ((scores_windows wCSP wCLF [[[0]]] [[[0]]] [0] [0] 1 [([0], [0])]).map
          fun row => row.getD 0 0).sum / (([([0], [0])] : List (List ℕ × List ℕ)).length : ℚ) :=
  (c10_scores_rectangular Unit Unit wCSP wCLF [[[0]]] [[[0]]] [0] [0] 1
    [([0], [0])]).2.2.2 0 (by decide)

/-- C2: the sliding offsets are exactly the multiples of the step strictly
below nSamples − wLength (so every test window fits inside the samples); each
split fits the transform and classifier once on the cropped training data
restricted to its train indices and scores every offset on the full-window
test data restricted to [n, n + wLength) and its test indices; the output is
the per-offset mean across splits with offset-to-time mapping
(offset + wLength/2) / sfreq + tmin. -/
theorem c2_sliding_window_semantics :
    (∀ nSamples wLength wStep n : ℕ,
        n ∈ arange0 (nSamples - wLength) wStep ↔
          0 < wStep ∧ wStep ∣ n ∧ n < nSamples - wLength) ∧
    (∀ nSamples wLength wStep n : ℕ,
        n ∈ arange0 (nSamples - wLength) wStep → n + wLength ≤ nSamples) ∧
    (∀ (C L : Type) (csp : CSPLike C) (clf : ClassifierLike L)
        (X Xtrain : List Trial) (labels : List ℤ) (ws : List ℕ) (wLength : ℕ)
        (splits : List (List ℕ × List ℕ)) (i j : ℕ),
        i < splits.length → j < ws.length →
        ((scores_windows csp clf X Xtrain labels ws wLength splits).getD i []).getD j 0 =
          clf.score
            (clf.fit (csp.fitTrans (pick Xtrain (splits.getD i ([], [])).1)
                (pickLabels labels (splits.getD i ([], [])).1)).2
              (pickLabels labels (splits.getD i ([], [])).1))
            (csp.transform
              (csp.fitTrans (pick Xtrain (splits.getD i ([], [])).1)
                (pickLabels labels (splits.getD i ([], [])).1)).1
              (cropWindow (pick X (splits.getD i ([], [])).2) (ws.getD j 0) wLength))
            (pickLabels labels (splits.getD i ([], [])).2)) ∧
    (∀ (sw : List (List ℚ)) (nOff j : ℕ), j < nOff →
        (meanOverSplits sw nOff).getD j 0 =
          (sw.map fun row => row.getD j 0).sum / (sw.length : ℚ)) ∧
    (∀ (ws : List ℕ) (wLength : ℕ) (sfreq tmin : ℚ) (j : ℕ), j < ws.length →
        (w_times ws wLength sfreq tmin).getD j 0 =
          ((ws.getD j 0 : ℚ) + (wLength : ℚ) / 2) / sfreq + tmin) := by
  refine ⟨fun _ _ _ _ => arange0_mem, ?_, ?_, ?_, ?_⟩
  · intro nSamples wLength wStep n hn
    have := (arange0_mem.mp hn).2.2
    omega
  · intro C L csp clf X Xtrain labels ws wLength splits i j hi hj
    rw [scores_windows, getD_map _ _ i ([], []) [] hi, splitScores,
      getD_map _ _ j 0 0 hj]
  · intro sw nOff j hj
    rw [meanOverSplits, getD_map _ _ j 0 0 (by simpa using hj),
      List.getD_eq_getElem _ _ (by simpa using hj), List.getElem_range]
  · intro ws wLength sfreq tmin j hj
    rw [w_times, getD_map _ _ j 0 0 hj]

/-- Witness for C2 at a concrete input: six samples, window length 2, step 2,
one split, evaluated with the constant transform and classifier. -/
theorem c2_sliding_window_semantics_witness :
    (2 ∈ arange0 (6 - 2) 2 ↔ 0 < 2 ∧ 2 ∣ 2 ∧ 2 < 6 - 2) ∧
    ((scores_windows wCSP wCLF [[[0]]] [[[0]]] [0] [0, 2] 2
        [([0], [0])]).getD 0 []).getD 1 0 =
      wCLF.score
        (wCLF.fit (wCSP.fitTrans (pick [[[0]]] (([([0], [0])] :
            List (List ℕ × List ℕ)).getD 0 ([], [])).1)
            (pickLabels [0] (([([0], [0])] : List (List ℕ × List ℕ)).getD 0 ([], [])).1)).2
          (pickLabels [0] (([([0], [0])] : List (List ℕ × List ℕ)).getD 0 ([], [])).1))
        (wCSP.transform
          (wCSP.fitTrans (pick [[[0]]] (([([0], [0])] :
              List (List ℕ × List ℕ)).getD 0 ([], [])).1)
            (pickLabels [0] (([([0], [0])] : List (List ℕ × List ℕ)).getD 0 ([], [])).1)).1
          (cropWindow (pick [[[0]]] (([([0], [0])] :
              List (List ℕ × List ℕ)).getD 0 ([], [])).2)
            (([0, 2] : List ℕ).getD 1 0) 2))
        (pickLabels [0] (([([0], [0])] : List (List ℕ × List ℕ)).getD 0 ([], [])).2) :=
  ⟨c2_sliding_window_semantics.1 6 2 2 2,
   c2_sliding_window_semantics.2.2.1 Unit Unit wCSP wCLF [[[0]]] [[[0]]] [0]
     [0, 2] 2 [([0], [0])] 0 1 (by decide) (by decide)⟩

/-- C5: with equal seeds the split generator produces identical split
assignments and the evaluator identical per-offset mean-accuracy arrays; the
evaluator itself adds no randomness beyond the split generator (equal split
lists give equal score matrices). -/
theorem c5_determinism (C L : Type) (csp : CSPLike C) (clf : ClassifierLike L)
    (X Xtrain : List Trial) (labels : List ℤ) (nSamples wLength wStep : ℕ)
    (seed1 seed2 nSplits : ℕ) (testFrac : ℚ) (h : seed1 = seed2) :
    shuffleSplit seed1 nSplits X.length testFrac =
      shuffleSplit seed2 nSplits X.length testFrac ∧
    evaluatorRun csp clf X Xtrain labels nSamples wLength wStep seed1 nSplits testFrac =
      evaluatorRun csp clf X Xtrain labels nSamples wLength wStep seed2 nSplits testFrac ∧
    ∀ splits1 splits2 : List (List ℕ × List ℕ), splits1 = splits2 →
      scores_windows csp clf X Xtrain labels (arange0 (nSamples - wLength) wStep)
          wLength splits1 =
        scores_windows csp clf X Xtrain labels (arange0 (nSamples - wLength) wStep)
          wLength splits2 := by
  subst h
  exact ⟨rfl, rfl, fun s1 s2 hs => hs ▸ rfl⟩

/-- Witness for C5 at a concrete input: two runs with seed 42 and 10 splits
coincide. -/
theorem c5_determinism_witness :
    shuffleSplit 42 10 1 (1 / 5) = shuffleSplit 42 10 1 (1 / 5) ∧
    evaluatorRun wCSP wCLF [[[0]]] [[[0]]] [0] 6 2 2 42 10 (1 / 5) =
      evaluatorRun wCSP wCLF [[[0]]] [[[0]]] [0] 6 2 2 42 10 (1 / 5) ∧
    ∀ splits1 splits2 : List (List ℕ × List ℕ), splits1 = splits2 →
      scores_windows wCSP wCLF [[[0]]] [[[0]]] [0] (arange0 (6 - 2) 2) 2 splits1 =
        scores_windows wCSP wCLF [[[0]]] [[[0]]] [0] (arange0 (6 - 2) 2) 2 splits2 :=
  c5_determinism Unit Unit wCSP wCLF [[[0]]] [[[0]]] [0] 6 2 2 42 42 10 (1 / 5) rfl

end HiParis
